import Mathlib

/-!
Verification of the lineage evidence ingestion and graph traversal engine
of the snowsarva repository, as a shallow embedding in Lean.

The embedded code:
* `SnowflakeLineageExtractor.store_lineage_data` (backend/src/lineage_parser.py,
  lines 117-227): node MERGE-upsert and edge INSERT against the store tables.
* `SnowflakeLineageExtractor.extract_column_lineage` (lineage_parser.py, lines 22-74).
* `lineage_object` and `lineage_impact` endpoints (backend/src/snowpark.py,
  lines 331-448): bounded breadth-first traversal over the stored graph.

External effects are made explicit: the wall clock is a `now : Nat` parameter,
`uuid.uuid4()` is a fresh-id counter threaded through the state, a Python
exception raised by one `session.sql(...).collect()` call is an oracle
`Nat → Bool` giving, per record index, whether that record's storage attempt
raises.  Python dict keys that may be absent (or `None`) are `Option`s and
Python set operations are modelled by lists up to membership.
-/

namespace Snowsarva

/-- An input node record: one dict of `lineage_data['nodes']` as read by
`store_lineage_data`.  `none` models an absent key / Python `None`. -/
structure NodeIn where
  database : Option String
  schema : Option String
  table : Option String
  column : Option String
  node_type : Option String
  query_id : Option String
  user_name : Option String
  observed_at : Option String
deriving DecidableEq, Repr

/-- An input edge record: one dict of `lineage_data['edges']`. `source` and
`target` are accessed with `edge['source']` (mandatory). -/
structure EdgeIn where
  source : String
  target : String
  edge_type : Option String
  query_id : Option String
  user_name : Option String
  observed_at : Option String
deriving DecidableEq, Repr

/-- The `lineage_data` argument of `store_lineage_data`. -/
structure LineageData where
  nodes : List NodeIn
  edges : List EdgeIn
  extraction_method : Option String
  sql_text : Option String
deriving DecidableEq, Repr

/-- Python truthiness of an optional string value (`if node.get('column')`):
present and non-empty. -/
def truthy : Option String → Bool
  | none => false
  | some s => !(s == "")

/-- Python `d.get(k, '')`: the value if present, else the empty string. -/
def getS : Option String → String
  | none => ""
  | some s => s

/-- Python `s.upper()`, modelled character-wise (structurally, so that it
evaluates inside the kernel). -/
def upperStr (s : String) : String :=
  ⟨s.data.map Char.toUpper⟩

/-- Python slicing `s[:n]`, which truncates by characters. -/
def takeStr (s : String) (n : Nat) : String :=
  ⟨s.data.take n⟩

/-- Python `s.strip()`: drop whitespace from both ends. -/
def stripStr (s : String) : String :=
  ⟨((s.data.dropWhile Char.isWhitespace).reverse.dropWhile Char.isWhitespace).reverse⟩

/-- The object id computed at lineage_parser.py lines 127-130:
`database.schema.table.column` when the record has a truthy `column`, else
`database.schema.table`; absent parts default to `''`; letter case of every
part is preserved exactly as it appears in the record. -/
def objectId (n : NodeIn) : String :=
  if truthy n.column then
    getS n.database ++ "." ++ getS n.schema ++ "." ++ getS n.table ++ "." ++ getS n.column
  else
    getS n.database ++ "." ++ getS n.schema ++ "." ++ getS n.table

/-- The metadata object built for a node at lines 133-138. -/
structure NodeMeta where
  extraction_method : String
  query_id : Option String
  user_name : Option String
  observed_at : Option String
deriving DecidableEq, Repr

/-- `lineage_data.get('extraction_method', source)`. -/
def methodOf (ld : LineageData) (source : String) : String :=
  match ld.extraction_method with
  | none => source
  | some m => m

/-- The node metadata value: `str(node.get('observed_at')) if ... else None`
keeps the value only when truthy. -/
def nodeMetaOf (em : String) (n : NodeIn) : NodeMeta :=
  { extraction_method := em
    query_id := n.query_id
    user_name := n.user_name
    observed_at := if truthy n.observed_at then n.observed_at else none }

/-- A row of the `lineage_nodes` table, with the columns written by the MERGE
statement at lines 141-170.  Timestamps are abstract instants (`Nat`). -/
structure StoredNode where
  object_id : String
  object_name : String
  object_type : String
  schema_name : String
  database_name : String
  column_name : String
  node_type : String
  parent_object_id : Option String
  lineage_source : String
  metadata : NodeMeta
  first_seen_ts : Nat
  last_seen_ts : Nat
  created_at : Nat
  updated_at : Nat
deriving DecidableEq, Repr

/-- The row inserted by the `WHEN NOT MATCHED` branch of the node MERGE. -/
def newNodeRow (em source : String) (now : Nat) (n : NodeIn) : StoredNode :=
  { object_id := objectId n
    object_name := getS n.table
    object_type := "TABLE"
    schema_name := getS n.schema
    database_name := getS n.database
    column_name := getS n.column
    node_type := (match n.node_type with | none => "TABLE" | some t => t)
    parent_object_id := none
    lineage_source := source
    metadata := nodeMetaOf em n
    first_seen_ts := now
    last_seen_ts := now
    created_at := now
    updated_at := now }

/-- The `WHEN MATCHED` branch of the node MERGE: on an `object_id` match it
sets `last_seen_ts`, replaces `metadata` by the incoming metadata, and sets
`updated_at`; all other columns keep their stored values. -/
def mergeNodeRow (em : String) (now : Nat) (n : NodeIn) (row : StoredNode) : StoredNode :=
  if row.object_id == objectId n then
    { row with last_seen_ts := now, metadata := nodeMetaOf em n, updated_at := now }
  else row

/-- One node MERGE statement: update the matching rows when the id is present,
otherwise insert a fresh row. -/
def upsertNode (em source : String) (now : Nat) (n : NodeIn) (st : List StoredNode) :
    List StoredNode :=
  if st.any (fun row => row.object_id == objectId n) then
    st.map (mergeNodeRow em now n)
  else st ++ [newNodeRow em source now n]

/-- The node loop of `store_lineage_data` (lines 124-177): `nf i = true` means
the storage attempt for the record at index `i` raises; the record is then
skipped (`except ... continue`) and not counted in `nodes_stored`. -/
def storeNodesFrom (em source : String) (nf : Nat → Bool) (now : Nat) :
    Nat → List NodeIn → List StoredNode → List StoredNode × Nat
  | _, [], st => (st, 0)
  | i, n :: rest, st =>
    if nf i then storeNodesFrom em source nf now (i+1) rest st
    else
      let p := storeNodesFrom em source nf now (i+1) rest (upsertNode em source now n st)
      (p.1, p.2 + 1)

/-- The metadata object built for an edge at lines 185-191. -/
structure EdgeMeta where
  extraction_method : String
  query_id : Option String
  user_name : Option String
  observed_at : Option String
  sql_text : String
deriving DecidableEq, Repr

/-- A row of the `lineage_edges` table, with the columns written by the INSERT
statement at lines 194-210.  `edge_id` is the fresh uuid, modelled by a
counter value; `confidence_score` is the hardcoded literal `1.0`. -/
structure StoredEdge where
  edge_id : Nat
  src_object_id : String
  tgt_object_id : String
  edge_kind : String
  observed_ts : Nat
  confidence_score : ℚ
  lineage_source : String
  sql_text : String
  metadata : EdgeMeta
  created_at : Nat
deriving DecidableEq, Repr

/-- The row inserted for one edge record (lines 180-213): a brand new row with
a fresh `edge_id`, `confidence_score = 1.0`, and the truncated SQL text. -/
def newEdgeRow (em source sqlT : String) (now : Nat) (uid : Nat) (e : EdgeIn) : StoredEdge :=
  { edge_id := uid
    src_object_id := e.source
    tgt_object_id := e.target
    edge_kind := (match e.edge_type with | none => "LINEAGE" | some k => k)
    observed_ts := now
    confidence_score := 1
    lineage_source := source
    sql_text := takeStr sqlT 500
    metadata :=
      { extraction_method := em
        query_id := e.query_id
        user_name := e.user_name
        observed_at := if truthy e.observed_at then e.observed_at else none
        sql_text := takeStr sqlT 1000 }
    created_at := now }

/-- The edge loop of `store_lineage_data` (lines 180-217).  The uuid is drawn
before the insert, so a failing record still consumes a fresh id.  Returns the
edge table, the next fresh id, and `edges_stored`. -/
def storeEdgesFrom (em source sqlT : String) (ef : Nat → Bool) (now : Nat) :
    Nat → Nat → List EdgeIn → List StoredEdge → List StoredEdge × Nat × Nat
  | _, uid, [], acc => (acc, uid, 0)
  | i, uid, e :: rest, acc =>
    if ef i then storeEdgesFrom em source sqlT ef now (i+1) (uid+1) rest acc
    else
      let p := storeEdgesFrom em source sqlT ef now (i+1) (uid+1) rest
        (acc ++ [newEdgeRow em source sqlT now uid e])
      (p.1, p.2.1, p.2.2 + 1)

/-- The durable state owned by the graph store: the two tables plus the
fresh-uuid supply. -/
structure Store where
  nodes : List StoredNode
  edges : List StoredEdge
  nextUid : Nat
deriving DecidableEq, Repr

/-- The dict returned by `store_lineage_data` on lines 219-224. -/
structure StoreResult where
  status : String
  nodes_stored : Nat
  edges_stored : Nat
  source : String
deriving DecidableEq, Repr

/-- `SnowflakeLineageExtractor.store_lineage_data` (lines 117-227): process
every node record, then every edge record; per-record exceptions (given by the
oracles `nf`, `ef`) skip the record and continue the batch.  The outer
`except` branch (lines 226-227) is unreachable here since the only raising
operations are the per-record `collect()` calls. -/
def store_lineage_data (ld : LineageData) (source : String) (nf ef : Nat → Bool)
    (now : Nat) (st : Store) : Store × StoreResult :=
  let em := methodOf ld source
  let sqlT := getS ld.sql_text
  let pn := storeNodesFrom em source nf now 0 ld.nodes st.nodes
  let pe := storeEdgesFrom em source sqlT ef now 0 st.nextUid ld.edges st.edges
  ({ nodes := pn.1, edges := pe.1, nextUid := pe.2.1 },
   { status := "success", nodes_stored := pn.2, edges_stored := pe.2.2, source := source })

/-! ### Traversal endpoints (snowpark.py lines 331-448)

Python sets of ids (`current_ids`, `all_node_ids`, `next_ids`) are modelled by
lists used up to membership; a `x in s` test is `List.contains`.  The
`get_session() is None` and the outer `except` branches are unreachable in the
pure model (the only raising operations are the warehouse calls they guard). -/

/-- The result envelope of the lineage endpoints: node rows, edge rows and the
optional `info` field (`jsonify({'nodes': ..., 'edges': ..., 'info': ...})`). -/
structure LinResult where
  nodes : List StoredNode
  edges : List StoredEdge
  info : Option String
deriving DecidableEq, Repr

/-- The state of the `lineage_impact` expansion loop: `current_ids`,
`all_node_ids` and `all_edge_rows` of snowpark.py lines 428-430. -/
structure ImpactState where
  current : List String
  visited : List String
  rows : List StoredEdge
deriving DecidableEq, Repr

/-- The body of `for _ in range(max(1, depth))` at snowpark.py lines 431-440:
fetch the edges whose source is in the current frontier, extend the collected
rows, and take as next frontier the non-null targets not yet visited; stop
when no new id was discovered. -/
def impactLoop (edges : List StoredEdge) : Nat → ImpactState → ImpactState
  | 0, s => s
  | fuel+1, s =>
    let eRows := edges.filter (fun e => s.current.contains e.src_object_id)
    let rows' := s.rows ++ eRows
    let nexts := (eRows.map (fun e => e.tgt_object_id)).filter
        (fun t => !(t == "") && !(s.visited.contains t))
    if nexts.isEmpty then { s with rows := rows' }
    else impactLoop edges fuel { current := nexts, visited := s.visited ++ nexts, rows := rows' }

/-- Seed resolution shared by both endpoints: the stored nodes whose
`OBJECT_NAME` matches the requested name case-insensitively
(`f.upper(f.col('OBJECT_NAME')) == name.upper()`). -/
def nameMatches (st : Store) (name : String) : List StoredNode :=
  st.nodes.filter (fun n => upperStr n.object_name == upperStr name)

/-- The seed object ids resolved from a requested name. -/
def seedIdsFor (st : Store) (name : String) : List String :=
  (nameMatches st name).map (fun n => n.object_id)

/-- The `/lineage/impact` endpoint (snowpark.py lines 407-448): resolve seeds
by name; if none match return the bare empty result; otherwise run the
downstream-only expansion for `max(1, depth)` levels and return the node rows
of every visited id together with every collected edge row. -/
def lineage_impact (st : Store) (name : String) (depth : Nat) : LinResult :=
  let seeds := seedIdsFor st name
  if seeds.isEmpty then { nodes := [], edges := [], info := none }
  else
    let fin := impactLoop st.edges (max 1 depth)
      { current := seeds, visited := seeds, rows := [] }
    { nodes := st.nodes.filter (fun n => fin.visited.contains n.object_id)
      edges := fin.rows
      info := none }

/-- The state of the `lineage_object` expansion loop (lines 368-370). -/
structure ObjState where
  current : List String
  visited : List String
  rows : List StoredEdge
deriving DecidableEq, Repr

/-- The body of `for _ in range(max(0, depth - 1))` at snowpark.py lines
372-388: scan every collected edge row in both directions from the current
frontier, drop already-visited ids, then fetch the edges incident to the new
frontier and append them (possibly re-fetching rows already collected). -/
def objLoop (edges : List StoredEdge) : Nat → ObjState → ObjState
  | 0, s => s
  | fuel+1, s =>
    if s.rows.isEmpty then s
    else
      let nexts := ((s.rows.filter (fun e => s.current.contains e.src_object_id)).map
            (fun e => e.tgt_object_id)
          ++ (s.rows.filter (fun e => s.current.contains e.tgt_object_id)).map
            (fun e => e.src_object_id)).filter
          (fun t => !(s.visited.contains t))
      if nexts.isEmpty then s
      else
        let extra := edges.filter (fun e =>
          nexts.contains e.src_object_id || nexts.contains e.tgt_object_id)
        objLoop edges fuel
          { current := nexts, visited := s.visited ++ nexts, rows := s.rows ++ extra }

/-- The `/lineage/object` endpoint (snowpark.py lines 331-404): resolve the
requested name (and optional column) against the node table; when nothing
matches return the empty result with the explicit
`'info': 'No matching nodes found'` indicator; otherwise expand from the
direct incident edges for `depth - 1` further levels in both directions. -/
def lineage_object (st : Store) (name : String) (column : Option String) (depth : Nat) :
    LinResult :=
  let matchedRows :=
    match column with
    | none => nameMatches st name
    | some c => (nameMatches st name).filter (fun n => upperStr n.column_name == upperStr c)
  let nodeIds := matchedRows.map (fun n => n.object_id)
  if nodeIds.isEmpty then
    { nodes := [], edges := [], info := some "No matching nodes found" }
  else
    let edges0 := st.edges.filter (fun e =>
      nodeIds.contains e.src_object_id || nodeIds.contains e.tgt_object_id)
    let fin := objLoop st.edges (depth - 1)
      { current := nodeIds, visited := nodeIds, rows := edges0 }
    { nodes := st.nodes.filter (fun n => fin.visited.contains n.object_id)
      edges := fin.rows
      info := none }

/-! ### `extract_column_lineage` (lineage_parser.py lines 22-74)

The two external library calls — `sqlglot.parse_one` and `sqlglot.lineage` —
are oracles passed as `Except` values: `.error msg` models the call raising
with message `msg`. -/

/-- A node of the external `sqlglot.lineage` result, as accessed through
`getattr`: `none` models a missing attribute or `None`. -/
structure GlotNode where
  idStr : String
  table : Option String
  column : Option String
  db : Option String
  schemaPart : Option String
deriving DecidableEq, Repr

/-- The external `sqlglot.lineage` result: its nodes and its
`(source, target)` edge pairs. -/
structure GlotResult where
  nodes : List GlotNode
  edges : List (String × String)
deriving DecidableEq, Repr

/-- A node dict produced by `extract_column_lineage` (lines 47-54). -/
structure ExtractNode where
  id : String
  table : Option String
  column : Option String
  database : Option String
  schemaPart : Option String
  node_type : String
deriving DecidableEq, Repr

/-- An edge dict produced by `extract_column_lineage` (lines 59-63). -/
structure ExtractEdge where
  source : String
  target : String
  edge_type : String
deriving DecidableEq, Repr

/-- The dict returned by `extract_column_lineage`: the `nodes` and `edges`
lists are always present; `error` carries the failure tag when one of the
guarded steps failed, and `sql_text` / `extraction_method` are only set on
success. -/
structure ExtractResult where
  nodes : List ExtractNode
  edges : List ExtractEdge
  sql_text : Option String
  extraction_method : Option String
  error : Option String
deriving DecidableEq, Repr

/-- `SnowflakeLineageExtractor.extract_column_lineage` (lines 22-74): strip
the input; reject empty SQL with `'empty_sql'`; surface a `parse_one` failure
as `'sqlglot_parse_failed: ...'` and a `lineage` failure as
`'lineage_extraction_failed: ...'`, each with empty node and edge lists;
otherwise convert the lineage result's nodes and edges.  Every branch returns
a well-formed result — the whole body sits inside `try/except`. -/
def extract_column_lineage (sql_text : String) (parseOne : Except String Unit)
    (lineageCall : Except String GlotResult) : ExtractResult :=
  let t := stripStr sql_text
  if t == "" then
    { nodes := [], edges := [], sql_text := none, extraction_method := none
      error := some "empty_sql" }
  else
    match parseOne with
    | .error msg =>
      { nodes := [], edges := [], sql_text := none, extraction_method := none
        error := some ("sqlglot_parse_failed: " ++ msg) }
    | .ok _ =>
      match lineageCall with
      | .error msg =>
        { nodes := [], edges := [], sql_text := none, extraction_method := none
          error := some ("lineage_extraction_failed: " ++ msg) }
      | .ok lr =>
        { nodes := lr.nodes.map (fun n =>
            { id := n.idStr
              table := n.table
              column := n.column
              database := n.db
              schemaPart := n.schemaPart
              node_type := if truthy n.column then "COLUMN" else "TABLE" })
          edges := lr.edges.map (fun p =>
            { source := p.1, target := p.2, edge_type := "COLUMN_LINEAGE" })
          sql_text := some t
          extraction_method := some "sqlglot"
          error := none }

/-! ### Spec-side reachability

Bounded downstream reachability as §4.5 of the specification words it: the
ids reachable from the seeds by at most `n` hops following stored edges in
the `source → target` direction.  This is the yardstick the traversal claims
compare the code against. -/

/-- `ball edges seeds n`: the ids within `n` downstream hops of `seeds`
(membership is what matters; duplicates are irrelevant). -/
def ball (edges : List StoredEdge) (seeds : List String) : Nat → List String
  | 0 => seeds
  | n+1 =>
    let b := ball edges seeds n
    b ++ (edges.filter (fun e => b.contains e.src_object_id)).map (fun e => e.tgt_object_id)

/-! ### Proof-side characterizations and concrete fixtures -/

/-- The records of a batch whose storage attempt does not raise, starting
from index `i` (the subsequence the failure-isolating loops actually store). -/
def keptFrom (f : Nat → Bool) : Nat → List α → List α
  | _, [] => []
  | i, x :: rest => if f i then keptFrom f (i+1) rest else x :: keptFrom f (i+1) rest

/-- Failure-free node processing: the node MERGE folded over a batch. -/
def runNodes (em source : String) (now : Nat) (b : List NodeIn) (st : List StoredNode) :
    List StoredNode :=
  b.foldl (fun s n => upsertNode em source now n s) st

/-- The edge rows appended for the records that do not raise; every record,
raising or not, consumes one fresh id (the uuid is drawn before the insert). -/
def edgeRowsOf (em source sqlT : String) (ef : Nat → Bool) (now : Nat) :
    Nat → Nat → List EdgeIn → List StoredEdge
  | _, _, [] => []
  | i, uid, e :: rest =>
    if ef i then edgeRowsOf em source sqlT ef now (i+1) (uid+1) rest
    else newEdgeRow em source sqlT now uid e ::
      edgeRowsOf em source sqlT ef now (i+1) (uid+1) rest

/-- A stored node row with the timestamp columns that a repeat observation is
allowed to advance (`last_seen_ts`, `updated_at`) blanked out: two stores are
"identical modulo last_seen" precisely when their rows agree under this
projection. -/
def projNode (r : StoredNode) : StoredNode :=
  { r with last_seen_ts := 0, updated_at := 0 }

/-- The `(source_id, target_id, transform_kind)` match key of a stored edge
row, as §4.3 of the specification defines it. -/
def edgeKey (e : StoredEdge) : String × String × String :=
  (e.src_object_id, e.tgt_object_id, e.edge_kind)

/-- The match key an input edge record would receive once stored. -/
def edgeKeyIn (e : EdgeIn) : String × String × String :=
  (e.source, e.target, match e.edge_type with | none => "LINEAGE" | some k => k)

/-- All matched-branch MERGE updates of a batch applied to one stored row. -/
def phiFull (em : String) (now : Nat) (b : List NodeIn) (row : StoredNode) : StoredNode :=
  b.foldl (fun r n => mergeNodeRow em now n r) row

/-- Fold computing the metadata of the last batch record matching an id. -/
def lastMetaAux (em : String) (i : String) : List NodeIn → Option NodeMeta → Option NodeMeta
  | [], acc => acc
  | n :: rest, acc =>
    lastMetaAux em i rest (if objectId n == i then some (nodeMetaOf em n) else acc)

/-- The metadata of the last record of the batch whose object id is `i`,
if any: the value the MERGE loop leaves in a matched row's `metadata`. -/
def lastMeta (em : String) (i : String) (b : List NodeIn) : Option NodeMeta :=
  lastMetaAux em i b none

/-- `∃` a row with the given object id (the MERGE `ON` match condition). -/
def hasId (st : List StoredNode) (j : String) : Prop :=
  ∃ r ∈ st, r.object_id = j

/-- Membership form of "the ids discovered at exactly depth `k`". -/
def FrontMem (g : List StoredEdge) (seeds : List String) : Nat → String → Prop
  | 0, x => x ∈ seeds
  | k+1, x => x ∈ ball g seeds (k+1) ∧ x ∉ ball g seeds k

/-- "The edge's source was expanded within the first `k` levels": the rows a
`k`-level expansion has collected. -/
def SrcExpanded (g : List StoredEdge) (seeds : List String) : Nat → StoredEdge → Prop
  | 0, _ => False
  | k+1, e => e.src_object_id ∈ ball g seeds k

/-- Loop invariant of the `lineage_impact` expansion after `k` levels. -/
def ImpInv (g : List StoredEdge) (seeds : List String) (k : Nat) (s : ImpactState) : Prop :=
  (∀ x, x ∈ s.current ↔ FrontMem g seeds k x) ∧
  (∀ x, x ∈ s.visited ↔ x ∈ ball g seeds k) ∧
  (∀ e, e ∈ s.rows ↔ e ∈ g ∧ SrcExpanded g seeds k e)

/-- An empty store. -/
def emptyStore : Store := { nodes := [], edges := [], nextUid := 0 }

/-- A table-level input node record for `DB.S.T`. -/
def exNode : NodeIn :=
  { database := some "DB", schema := some "S", table := some "T", column := none
    node_type := none, query_id := none, user_name := none, observed_at := none }

/-- The same node observed with a `query_id` in its context. -/
def exNodeQ1 : NodeIn :=
  { database := some "DB", schema := some "S", table := some "T", column := none
    node_type := none, query_id := some "Q1", user_name := none, observed_at := none }

/-- An input edge record between two column ids. -/
def exEdge : EdgeIn :=
  { source := "DB.S.A.X", target := "DB.S.T.Y", edge_type := none
    query_id := none, user_name := none, observed_at := none }

/-- A one-node, one-edge evidence batch. -/
def exBatch : LineageData :=
  { nodes := [exNode], edges := [exEdge], extraction_method := none, sql_text := none }

/-- A stored node row named and identified by `nm` (fixture). -/
def mkNodeRow (nm : String) : StoredNode :=
  { object_id := nm, object_name := nm, object_type := "TABLE", schema_name := "S"
    database_name := "DB", column_name := "", node_type := "TABLE"
    parent_object_id := none, lineage_source := "SQLGLOT"
    metadata := { extraction_method := "sqlglot", query_id := none, user_name := none
                  observed_at := none }
    first_seen_ts := 0, last_seen_ts := 0, created_at := 0, updated_at := 0 }

/-- A stored edge row from `s` to `t` (fixture). -/
def mkEdgeRow (i : Nat) (s t : String) : StoredEdge :=
  { edge_id := i, src_object_id := s, tgt_object_id := t, edge_kind := "LINEAGE"
    observed_ts := 0, confidence_score := 1, lineage_source := "SQLGLOT", sql_text := ""
    metadata := { extraction_method := "sqlglot", query_id := none, user_name := none
                  observed_at := none, sql_text := "" }
    created_at := 0 }

/-- The cyclic three-node graph `A → B → C → A` of the termination claim. -/
def cycleStore : Store :=
  { nodes := [mkNodeRow "A", mkNodeRow "B", mkNodeRow "C"]
    edges := [mkEdgeRow 0 "A" "B", mkEdgeRow 1 "B" "C", mkEdgeRow 2 "C" "A"]
    nextUid := 3 }

/-- A leaf node row of the star fixture: its id is `"L" ++ repr i` and its
`object_name` is empty so that it never matches a requested name. -/
def leafRow (i : Nat) : StoredNode :=
  { mkNodeRow ("L" ++ Nat.repr i) with object_name := "" }

/-- A hub `A` with `n` downstream leaves: arbitrarily wide fan-out. -/
def starStore (n : Nat) : Store :=
  { nodes := mkNodeRow "A" :: (List.range n).map leafRow
    edges := (List.range n).map (fun i => mkEdgeRow i "A" ("L" ++ Nat.repr i))
    nextUid := n }

/-- A two-node chain `A → B` (well-formed store fixture). -/
def chainStore : Store :=
  { nodes := [mkNodeRow "A", mkNodeRow "B"], edges := [mkEdgeRow 0 "A" "B"], nextUid := 1 }

/-- A store that already holds one `S1 → T1` edge. -/
def exStore : Store := { nodes := [], edges := [mkEdgeRow 0 "S1" "T1"], nextUid := 1 }

/-- A batch carrying a single `S1 → T1` IDENTITY edge observation. -/
def dupEdgeBatch : LineageData :=
  { nodes := []
    edges := [{ source := "S1", target := "T1", edge_type := some "IDENTITY"
                query_id := none, user_name := none, observed_at := none }]
    extraction_method := none, sql_text := none }

/-- The batch observing `DB.S.T` with a `query_id` context. -/
def batchQ1 : LineageData :=
  { nodes := [exNodeQ1], edges := [], extraction_method := none, sql_text := none }

/-- The batch observing `DB.S.T` with no `query_id` context. -/
def batchNoQ : LineageData :=
  { nodes := [exNode], edges := [], extraction_method := none, sql_text := none }

/-! ## Theorems -/

/-- Bridge between the boolean `List.contains` used by the embedded loops and
propositional membership. -/
theorem contains_iff_mem (l : List String) (x : String) : l.contains x = true ↔ x ∈ l := by
  induction l with
  | nil => simp [List.contains]
  | cons a t ih => simp [List.contains] at ih ⊢

/-- The records kept by an all-successful run are the whole batch. -/
theorem keptFrom_false (l : List α) : ∀ i : Nat, keptFrom (fun _ => false) i l = l := by
  induction l with
  | nil => intro i; rfl
  | cons x t ih => intro i; simp [keptFrom, ih]

/-- Characterization of the edge loop: the stored edge rows are the incoming
table followed by one fresh row per non-raising record, every record consumes
one fresh id, and `edges_stored` counts the non-raising records. -/
theorem storeEdgesFrom_char (em source sqlT : String) (ef : Nat → Bool) (now : Nat) :
    ∀ (es : List EdgeIn) (i uid : Nat) (acc : List StoredEdge),
      storeEdgesFrom em source sqlT ef now i uid es acc =
        (acc ++ edgeRowsOf em source sqlT ef now i uid es, uid + es.length,
         (keptFrom ef i es).length) := by
  intro es
  induction es with
  | nil => intro i uid acc; simp [storeEdgesFrom, edgeRowsOf, keptFrom]
  | cons e rest ih =>
    intro i uid acc
    by_cases h : ef i <;>
      simp [storeEdgesFrom, edgeRowsOf, keptFrom, h, ih] <;> omega

/-- Every row the edge loop appends carries the hardcoded confidence `1.0`. -/
theorem edgeRowsOf_conf (em source sqlT : String) (ef : Nat → Bool) (now : Nat) :
    ∀ (es : List EdgeIn) (i uid : Nat) (e : StoredEdge),
      e ∈ edgeRowsOf em source sqlT ef now i uid es → e.confidence_score = 1 := by
  intro es
  induction es with
  | nil => intro i uid e h; simp [edgeRowsOf] at h
  | cons x rest ih =>
    intro i uid e h
    by_cases hx : ef i
    · simp [edgeRowsOf, hx] at h
      exact ih _ _ _ h
    · simp [edgeRowsOf, hx] at h
      rcases h with rfl | h
      · rfl
      · exact ih _ _ _ h

/-- In an all-successful run the appended rows carry, in order, exactly the
match keys of the batch's edge records. -/
theorem edgeRowsOf_key (em source sqlT : String) (now : Nat) :
    ∀ (es : List EdgeIn) (i uid : Nat),
      (edgeRowsOf em source sqlT (fun _ => false) now i uid es).map edgeKey =
        es.map edgeKeyIn := by
  intro es
  induction es with
  | nil => intro i uid; simp [edgeRowsOf]
  | cons e rest ih =>
    intro i uid
    simp [edgeRowsOf, ih, edgeKey, edgeKeyIn, newEdgeRow]

/-- Characterization of the node loop: it is the failure-free MERGE fold over
the kept subsequence, and `nodes_stored` counts the kept records. -/
theorem storeNodesFrom_char (em source : String) (nf : Nat → Bool) (now : Nat) :
    ∀ (b : List NodeIn) (i : Nat) (st : List StoredNode),
      storeNodesFrom em source nf now i b st =
        (runNodes em source now (keptFrom nf i b) st, (keptFrom nf i b).length) := by
  intro b
  induction b with
  | nil => intro i st; simp [storeNodesFrom, keptFrom, runNodes]
  | cons n rest ih =>
    intro i st
    by_cases h : nf i <;> simp [storeNodesFrom, keptFrom, runNodes, h, ih]

/-- The matched-branch update never changes the row's id. -/
theorem mergeNodeRow_object_id (em : String) (now : Nat) (n : NodeIn) (row : StoredNode) :
    (mergeNodeRow em now n row).object_id = row.object_id := by
  unfold mergeNodeRow
  split <;> rfl

/-- After an upsert, the record's id is present. -/
theorem hasId_upsert_self (em source : String) (now : Nat) (n : NodeIn)
    (st : List StoredNode) : hasId (upsertNode em source now n st) (objectId n) := by
  unfold upsertNode hasId
  split
  · rename_i h
    obtain ⟨r, hr, hb⟩ := List.any_eq_true.mp h
    exact ⟨mergeNodeRow em now n r, List.mem_map.mpr ⟨r, hr, rfl⟩,
      by rw [mergeNodeRow_object_id]; exact eq_of_beq hb⟩
  · exact ⟨newNodeRow em source now n, by simp, rfl⟩

/-- An upsert never deletes an id. -/
theorem hasId_upsert_mono (em source : String) (now : Nat) (n : NodeIn)
    (st : List StoredNode) (j : String) (h : hasId st j) :
    hasId (upsertNode em source now n st) j := by
  obtain ⟨r, hr, he⟩ := h
  unfold upsertNode
  split
  · exact ⟨mergeNodeRow em now n r, List.mem_map.mpr ⟨r, hr, rfl⟩,
      by rw [mergeNodeRow_object_id]; exact he⟩
  · exact ⟨r, List.mem_append_left _ hr, he⟩

/-- Processing a batch never deletes an id. -/
theorem hasId_runNodes_mono (em source : String) (now : Nat) :
    ∀ (b : List NodeIn) (st : List StoredNode) (j : String),
      hasId st j → hasId (runNodes em source now b st) j := by
  intro b
  induction b with
  | nil => intro st j h; exact h
  | cons n rest ih =>
    intro st j h
    exact ih _ _ (hasId_upsert_mono em source now n st j h)

/-- After a failure-free pass, every batch record's id is present. -/
theorem runNodes_hasId_all (em source : String) (now : Nat) :
    ∀ (b : List NodeIn) (st : List StoredNode) (n : NodeIn), n ∈ b →
      hasId (runNodes em source now b st) (objectId n) := by
  intro b
  induction b with
  | nil => intro st n h; simp at h
  | cons m rest ih =>
    intro st n h
    rcases List.mem_cons.mp h with rfl | h
    · exact hasId_runNodes_mono em source now rest _ _ (hasId_upsert_self em source now n st)
    · exact ih _ n h

/-- The accumulator of the last-matching-metadata fold only matters when no
record of the batch matches. -/
theorem lastMetaAux_char (em : String) (i : String) :
    ∀ (b : List NodeIn) (acc : Option NodeMeta),
      lastMetaAux em i b acc =
        match lastMetaAux em i b none with
        | none => acc
        | some m => some m := by
  intro b
  induction b with
  | nil => intro acc; rfl
  | cons n rest ih =>
    intro acc
    simp only [lastMetaAux]
    cases h : objectId n == i
    · simp only [Bool.false_eq_true, if_false]
      exact ih acc
    · simp only [if_true]
      rw [ih (some (nodeMetaOf em n))]
      cases lastMetaAux em i rest none <;> rfl

/-- Unfolding `lastMeta` over a cons: later records take precedence. -/
theorem lastMeta_cons (em i : String) (n : NodeIn) (b : List NodeIn) :
    lastMeta em i (n :: b) =
      match lastMeta em i b with
      | some m => some m
      | none => if objectId n == i then some (nodeMetaOf em n) else none := by
  simp only [lastMeta, lastMetaAux]
  rw [lastMetaAux_char]
  cases lastMetaAux em i b none <;> rfl

/-- Replaying the matched-branch updates of a whole batch on one row sets its
metadata to the last matching record's metadata (and refreshes the
timestamps), or leaves the row alone when no record matches. -/
theorem phiFull_char (em : String) (now : Nat) :
    ∀ (b : List NodeIn) (row : StoredNode),
      phiFull em now b row =
        match lastMeta em row.object_id b with
        | none => row
        | some m => { row with last_seen_ts := now, metadata := m, updated_at := now } := by
  intro b
  induction b with
  | nil => intro row; rfl
  | cons n rest ih =>
    intro row
    show phiFull em now rest (mergeNodeRow em now n row) = _
    rw [ih, mergeNodeRow_object_id, lastMeta_cons]
    unfold mergeNodeRow
    cases hb : row.object_id == objectId n
    · have : (objectId n == row.object_id) = false := by
        have hne : row.object_id ≠ objectId n := by simpa using hb
        simpa using fun h => hne h.symm
      simp only [Bool.false_eq_true, if_false, this]
      cases lastMeta em row.object_id rest <;> rfl
    · have : (objectId n == row.object_id) = true := by
        have he : row.object_id = objectId n := eq_of_beq hb
        simp [he]
      simp only [if_true, this]
      cases lastMeta em row.object_id rest <;> rfl

/-- When every batch id is already present, a pass is a pure row-wise map of
matched-branch updates (no inserts happen). -/
theorem runNodes_all_present (em source : String) (now : Nat) :
    ∀ (b : List NodeIn) (st : List StoredNode),
      (∀ n ∈ b, hasId st (objectId n)) →
      runNodes em source now b st = st.map (phiFull em now b) := by
  intro b
  induction b with
  | nil =>
    intro st _
    have hid : phiFull em now [] = fun r => r := funext fun r => rfl
    show st = st.map (phiFull em now [])
    rw [hid, List.map_id']
  | cons n rest ih =>
    intro st hall
    have hpres : hasId st (objectId n) := hall n (by simp)
    have hup : upsertNode em source now n st = st.map (mergeNodeRow em now n) := by
      unfold upsertNode
      rw [if_pos]
      obtain ⟨r, hr, he⟩ := hpres
      exact List.any_eq_true.mpr ⟨r, hr, by simp [he]⟩
    show runNodes em source now rest (upsertNode em source now n st) = _
    rw [hup, ih]
    · rw [List.map_map]
      rfl
    · intro m hm
      obtain ⟨r, hr, he⟩ := hall m (by simp [hm])
      exact ⟨mergeNodeRow em now n r, List.mem_map.mpr ⟨r, hr, rfl⟩,
        by rw [mergeNodeRow_object_id]; exact he⟩

/-- A row of an upsert result whose id is the upserted record's id carries the
record's metadata, whether it was merged or freshly inserted. -/
theorem upsertNode_meta (em source : String) (now : Nat) (n : NodeIn) (st : List StoredNode)
    (row : StoredNode) (hrow : row ∈ upsertNode em source now n st)
    (hid : row.object_id = objectId n) : row.metadata = nodeMetaOf em n := by
  unfold upsertNode at hrow
  by_cases hany : st.any (fun r => r.object_id == objectId n)
  · rw [if_pos hany] at hrow
    obtain ⟨r₀, hr₀, rfl⟩ := List.mem_map.mp hrow
    cases h : r₀.object_id == objectId n
    · rw [mergeNodeRow, if_neg (by simp [h])] at hid ⊢
      exact absurd hid (by simpa using h)
    · rw [mergeNodeRow, if_pos (by simp [h])]
  · rw [if_neg hany] at hrow
    rcases List.mem_append.mp hrow with h | h
    · exact absurd (List.any_eq_true.mpr ⟨row, h, by simp [hid]⟩) hany
    · rcases List.mem_singleton.mp h with rfl
      rfl

/-- A row of an upsert result whose id differs from the upserted record's id
was already stored, unchanged. -/
theorem upsertNode_other (em source : String) (now : Nat) (n : NodeIn) (st : List StoredNode)
    (row : StoredNode) (hrow : row ∈ upsertNode em source now n st)
    (hid : row.object_id ≠ objectId n) : row ∈ st := by
  unfold upsertNode at hrow
  by_cases hany : st.any (fun r => r.object_id == objectId n)
  · rw [if_pos hany] at hrow
    obtain ⟨r₀, hr₀, rfl⟩ := List.mem_map.mp hrow
    cases h : r₀.object_id == objectId n
    · rw [mergeNodeRow, if_neg (by simp [h])]
      exact hr₀
    · exact absurd (by rw [mergeNodeRow_object_id]; exact eq_of_beq h) hid
  · rw [if_neg hany] at hrow
    rcases List.mem_append.mp hrow with h | h
    · exact h
    · rcases List.mem_singleton.mp h with rfl
      exact absurd rfl hid

/-- After a failure-free pass, a stored row's metadata is the metadata of the
last batch record matching its id; rows matching no record are untouched. -/
theorem runNodes_meta (em source : String) (now : Nat) :
    ∀ (b : List NodeIn) (st : List StoredNode) (row : StoredNode),
      row ∈ runNodes em source now b st →
      match lastMeta em row.object_id b with
      | some m => row.metadata = m
      | none => row ∈ st := by
  intro b
  induction b with
  | nil => intro st row h; exact h
  | cons n rest ih =>
    intro st row h
    have hrec := ih (upsertNode em source now n st) row h
    rw [lastMeta_cons]
    cases hm : lastMeta em row.object_id rest
    · rw [hm] at hrec
      cases hb : objectId n == row.object_id
      · simp only [Bool.false_eq_true, if_false]
        exact upsertNode_other em source now n st row hrec
          (by intro he; rw [he] at hb; simp at hb)
      · simp only [if_true]
        exact upsertNode_meta em source now n st row hrec (eq_of_beq hb).symm
    · rw [hm] at hrec
      exact hrec

/-- An all-successful ingestion in closed form: nodes are the MERGE fold,
edges are appended rows, each edge consumes one fresh id. -/
theorem store_false_eq (ld : LineageData) (source : String) (now : Nat) (st : Store) :
    store_lineage_data ld source (fun _ => false) (fun _ => false) now st =
      ({ nodes := runNodes (methodOf ld source) source now ld.nodes st.nodes
         edges := st.edges ++ edgeRowsOf (methodOf ld source) source (getS ld.sql_text)
           (fun _ => false) now 0 st.nextUid ld.edges
         nextUid := st.nextUid + ld.edges.length },
       { status := "success", nodes_stored := ld.nodes.length
         edges_stored := ld.edges.length, source := source }) := by
  simp only [store_lineage_data]
  rw [storeNodesFrom_char, storeEdgesFrom_char, keptFrom_false, keptFrom_false]

/-- **C1, counterexample.**  Re-ingesting the one-edge batch `exBatch`
duplicates its edge: after the second pass the edge table holds two rows with
the identical `(source_id, target_id, transform_kind)` match key rather than
one merged edge, so the edge set is not identical modulo `last_seen_at`. -/
theorem claim_C1_counterexample :
    ((store_lineage_data exBatch "SQLGLOT" (fun _ => false) (fun _ => false) 1
        emptyStore).1.edges.map edgeKey = [("DB.S.A.X", "DB.S.T.Y", "LINEAGE")]) ∧
    ((store_lineage_data exBatch "SQLGLOT" (fun _ => false) (fun _ => false) 2
        (store_lineage_data exBatch "SQLGLOT" (fun _ => false) (fun _ => false) 1
          emptyStore).1).1.edges.map edgeKey =
      [("DB.S.A.X", "DB.S.T.Y", "LINEAGE"), ("DB.S.A.X", "DB.S.T.Y", "LINEAGE")]) := by
  decide

/-- **C1, amended.**  Ingestion is idempotent for nodes but not for edges:
re-ingesting the same batch leaves the node table identical modulo the
`last_seen_ts`/`updated_at` timestamps (the `projNode` projection), while the
edge table grows by one fresh-id row per edge record of the batch — every
observation is inserted, duplicating the `(source_id, target_id,
transform_kind)` match keys of the first pass. -/
theorem claim_C1_amended (ld : LineageData) (source : String) (now now' : Nat) (st : Store) :
    ((store_lineage_data ld source (fun _ => false) (fun _ => false) now'
        (store_lineage_data ld source (fun _ => false) (fun _ => false) now st).1).1.nodes.map
      projNode =
      (store_lineage_data ld source (fun _ => false) (fun _ => false) now st).1.nodes.map
        projNode) ∧
    ((store_lineage_data ld source (fun _ => false) (fun _ => false) now'
        (store_lineage_data ld source (fun _ => false) (fun _ => false) now st).1).1.edges.map
      edgeKey =
      (store_lineage_data ld source (fun _ => false) (fun _ => false) now st).1.edges.map
        edgeKey ++ ld.edges.map edgeKeyIn) := by
  rw [store_false_eq, store_false_eq]
  constructor
  · have hall : ∀ n ∈ ld.nodes,
        hasId (runNodes (methodOf ld source) source now ld.nodes st.nodes) (objectId n) :=
      fun n hn => runNodes_hasId_all (methodOf ld source) source now ld.nodes st.nodes n hn
    rw [runNodes_all_present (methodOf ld source) source now' ld.nodes _ hall, List.map_map]
    apply List.map_congr_left
    intro row hrow
    show projNode (phiFull (methodOf ld source) now' ld.nodes row) = projNode row
    rw [phiFull_char]
    have hmeta := runNodes_meta (methodOf ld source) source now ld.nodes st.nodes row hrow
    cases hm : lastMeta (methodOf ld source) row.object_id ld.nodes
    · rfl
    · rw [hm] at hmeta
      simp [projNode, hmeta]
  · rw [List.map_append, List.map_append, edgeRowsOf_key, edgeRowsOf_key, List.append_assoc]

/-- **C8.**  Per-record failure isolation of `store_lineage_data`: with
arbitrary per-record failure oracles, the failing records are skipped and the
store is exactly the store produced by the surviving subsequence of the batch
(failing edge records contribute no row), while the returned result reports
`status = success` and counts exactly the successfully stored node and edge
records — separating them from the failed ones, which are only skipped. -/
theorem claim_C8 (ld : LineageData) (source : String) (nf ef : Nat → Bool) (now : Nat)
    (st : Store) :
    (store_lineage_data ld source nf ef now st).2.status = "success" ∧
    (store_lineage_data ld source nf ef now st).2.nodes_stored =
      (keptFrom nf 0 ld.nodes).length ∧
    (store_lineage_data ld source nf ef now st).2.edges_stored =
      (keptFrom ef 0 ld.edges).length ∧
    (store_lineage_data ld source nf ef now st).1.nodes =
      runNodes (methodOf ld source) source now (keptFrom nf 0 ld.nodes) st.nodes ∧
    (store_lineage_data ld source nf ef now st).1.edges =
      st.edges ++ edgeRowsOf (methodOf ld source) source (getS ld.sql_text) ef now 0
        st.nextUid ld.edges := by
  simp only [store_lineage_data]
  rw [storeNodesFrom_char, storeEdgesFrom_char]
  and_intros <;> first | rfl | trivial

/-- **C2, counterexample.**  Identity resolution does not uppercase: the two
case variants of `db.schema.Table.Col` resolve to different object ids, so
case variants of the same qualified name yield distinct nodes. -/
theorem claim_C2_counterexample :
    objectId { database := some "db", schema := some "schema", table := some "Table"
               column := some "Col", node_type := none, query_id := none
               user_name := none, observed_at := none } ≠
    objectId { database := some "DB", schema := some "SCHEMA", table := some "TABLE"
               column := some "COL", node_type := none, query_id := none
               user_name := none, observed_at := none } := by decide

/-- **C2, amended.**  Identity resolution is a pure function of the four
qualified-name parts — it ignores every other field of the observation — and
joins the parts with `.` preserving their letter case: a column reference
yields `database.schema.table.column` and a table reference
`database.schema.table` (no uppercasing happens). -/
theorem claim_C2_amended :
    (∀ n₁ n₂ : NodeIn, n₁.database = n₂.database → n₁.schema = n₂.schema →
       n₁.table = n₂.table → n₁.column = n₂.column → objectId n₁ = objectId n₂) ∧
    (∀ n : NodeIn, truthy n.column = true →
       objectId n = getS n.database ++ "." ++ getS n.schema ++ "." ++ getS n.table
         ++ "." ++ getS n.column) ∧
    (∀ n : NodeIn, truthy n.column = false →
       objectId n = getS n.database ++ "." ++ getS n.schema ++ "." ++ getS n.table) := by
  refine ⟨?_, ?_, ?_⟩
  · intro n₁ n₂ h₁ h₂ h₃ h₄
    simp [objectId, h₁, h₂, h₃, h₄]
  · intro n h; simp [objectId, h]
  · intro n h; simp [objectId, h]

/-- **C2, witness.**  Two observations of `DB.S.T` differing in their
non-name context resolve to the same id. -/
theorem claim_C2_witness : objectId exNodeQ1 = objectId exNode :=
  claim_C2_amended.1 exNodeQ1 exNode rfl rfl rfl rfl

/-- **C3.**  On the cyclic graph `A → B → C → A`, the downstream traversal
with `max_depth = 10` terminates (the embedded loop is a total function) and
returns exactly the three nodes `A`, `B`, `C` and exactly the three edges —
no node is re-expanded and nothing is repeated. -/
theorem claim_C3 :
    (lineage_impact cycleStore "A" 10).nodes.map (fun n => n.object_id) = ["A", "B", "C"] ∧
    (lineage_impact cycleStore "A" 10).edges.map edgeKey =
      [("A", "B", "LINEAGE"), ("B", "C", "LINEAGE"), ("C", "A", "LINEAGE")] := by decide

/-- **C5, counterexample.**  An impact query for a name matching no stored
node returns the bare empty envelope with *no* explicit indicator — the
`info` field is absent (`none`), against the claim that every such query
carries one. -/
theorem claim_C5_counterexample :
    (lineage_impact emptyStore "UNKNOWN" 5).nodes = [] ∧
    (lineage_impact emptyStore "UNKNOWN" 5).edges = [] ∧
    (lineage_impact emptyStore "UNKNOWN" 5).info = none := by decide

/-- **C5, amended.**  When the requested name matches no stored node, both
endpoints return a well-formed empty result without raising: `lineage_object`
carries the explicit `'No matching nodes found'` indicator, while
`lineage_impact` returns the empty envelope with no indicator. -/
theorem claim_C5_amended (st : Store) (name : String) (column : Option String) (depth : Nat)
    (h : nameMatches st name = []) :
    lineage_object st name column depth =
      { nodes := [], edges := [], info := some "No matching nodes found" } ∧
    lineage_impact st name depth = { nodes := [], edges := [], info := none } := by
  constructor
  · unfold lineage_object
    cases column <;> simp [h]
  · unfold lineage_impact
    simp [seedIdsFor, h]

/-- **C5, witness.**  Probing an empty store for `ORDERS`. -/
theorem claim_C5_witness :
    lineage_object emptyStore "ORDERS" none 3 =
      { nodes := [], edges := [], info := some "No matching nodes found" } ∧
    lineage_impact emptyStore "ORDERS" 3 = { nodes := [], edges := [], info := none } :=
  claim_C5_amended emptyStore "ORDERS" none 3 (by decide)

/-- **C6, counterexample.**  Re-observing `DB.S.T` without a `query_id`
erases the stored `query_id = Q1`: stored metadata keys absent from the
incoming observation are *not* retained — the whole metadata object is
replaced. -/
theorem claim_C6_counterexample :
    ((store_lineage_data batchQ1 "SQLGLOT" (fun _ => false) (fun _ => false) 1
        emptyStore).1.nodes.map (fun r => r.metadata.query_id) = [some "Q1"]) ∧
    ((store_lineage_data batchNoQ "SQLGLOT" (fun _ => false) (fun _ => false) 2
        (store_lineage_data batchQ1 "SQLGLOT" (fun _ => false) (fun _ => false) 1
          emptyStore).1).1.nodes.map (fun r => r.metadata.query_id) = [none]) := by decide

/-- **C6, amended.**  Upserting an already-present node replaces its stored
metadata wholesale with the metadata built from the incoming observation:
incoming keys overwrite, and stored keys absent from the incoming observation
are overwritten with the incoming null rather than retained. -/
theorem claim_C6_amended (em source : String) (now : Nat) (n : NodeIn) (st : List StoredNode)
    (row : StoredNode) (hpres : ∃ r ∈ st, r.object_id = objectId n)
    (hrow : row ∈ upsertNode em source now n st) (hid : row.object_id = objectId n) :
    row.metadata = nodeMetaOf em n := by
  unfold upsertNode at hrow
  rw [if_pos] at hrow
  · obtain ⟨r₀, hr₀, rfl⟩ := List.mem_map.mp hrow
    by_cases h : r₀.object_id == objectId n
    · simp [mergeNodeRow, h]
    · simp [mergeNodeRow, h] at hid
      exact absurd hid (by simpa using h)
  · obtain ⟨r, hr, he⟩ := hpres
    exact List.any_eq_true.mpr ⟨r, hr, by simp [he]⟩

/-- **C6, witness.**  The merged row for a repeat observation of `DB.S.T`. -/
theorem claim_C6_witness :
    (mergeNodeRow "m" 2 exNode (newNodeRow "m" "SQLGLOT" 1 exNodeQ1)).metadata =
      nodeMetaOf "m" exNode :=
  claim_C6_amended "m" "SQLGLOT" 2 exNode [newNodeRow "m" "SQLGLOT" 1 exNodeQ1]
    (mergeNodeRow "m" 2 exNode (newNodeRow "m" "SQLGLOT" 1 exNodeQ1))
    (by decide) (by decide) (by decide)

/-- **C7, counterexample.**  Ingesting the same `S1 → T1` IDENTITY edge twice
leaves two separate rows with identical match keys and confidence `1.0` each:
no merge (and hence no `max`) ever happens on a duplicate match key. -/
theorem claim_C7_counterexample :
    ((store_lineage_data dupEdgeBatch "SQLGLOT" (fun _ => false) (fun _ => false) 2
        (store_lineage_data dupEdgeBatch "SQLGLOT" (fun _ => false) (fun _ => false) 1
          emptyStore).1).1.edges.map (fun e => (edgeKey e, e.confidence_score)) =
      [(("S1", "T1", "IDENTITY"), 1), (("S1", "T1", "IDENTITY"), 1)]) := by decide

/-- **C7, amended.**  Ingestion never modifies an existing edge row — every
stored row survives unchanged — and every row it adds carries the hardcoded
confidence `1.0`; stored confidences therefore trivially never decrease, but
by vacuity (there is no key-matching merge, duplicates are plain inserts). -/
theorem claim_C7_amended (ld : LineageData) (source : String) (now : Nat) (st : Store) :
    (∀ e, e ∈ st.edges →
       e ∈ (store_lineage_data ld source (fun _ => false) (fun _ => false) now st).1.edges) ∧
    (∀ e, e ∈ (store_lineage_data ld source (fun _ => false) (fun _ => false) now st).1.edges →
       e ∈ st.edges ∨ e.confidence_score = 1) := by
  have hchar := storeEdgesFrom_char (methodOf ld source) source (getS ld.sql_text)
      (fun _ => false) now ld.edges 0 st.nextUid st.edges
  constructor
  · intro e he
    unfold store_lineage_data
    simp only [hchar, List.mem_append]
    exact Or.inl he
  · intro e he
    unfold store_lineage_data at he
    simp only [hchar, List.mem_append] at he
    rcases he with h | h
    · exact Or.inl h
    · exact Or.inr (edgeRowsOf_conf _ _ _ _ _ _ _ _ _ h)

/-- **C7, witness.**  A pre-existing `S1 → T1` row survives re-ingestion of
the same observation. -/
theorem claim_C7_witness :
    mkEdgeRow 0 "S1" "T1" ∈
      (store_lineage_data dupEdgeBatch "SQLGLOT" (fun _ => false) (fun _ => false) 9
        exStore).1.edges :=
  (claim_C7_amended dupEdgeBatch "SQLGLOT" 9 exStore).1 (mkEdgeRow 0 "S1" "T1") (by decide)

/-- **C10.**  `extract_column_lineage` is total (the embedding is a function:
every branch returns a well-formed result with `nodes` and `edges` lists) and
its `error` key is present exactly when the stripped input is empty, SQL
parsing raised, or lineage extraction raised; in each of those cases both
lists are empty. -/
theorem claim_C10 (sql : String) (pr : Except String Unit) (lr : Except String GlotResult) :
    ((extract_column_lineage sql pr lr).error.isSome = true ↔
      (stripStr sql = "" ∨ (∃ m, pr = Except.error m) ∨ (∃ m, lr = Except.error m))) ∧
    ((extract_column_lineage sql pr lr).error.isSome = true →
      (extract_column_lineage sql pr lr).nodes = [] ∧
      (extract_column_lineage sql pr lr).edges = []) := by
  by_cases h : stripStr sql = ""
  · simp [extract_column_lineage, h]
  · cases pr with
    | error m => simp [extract_column_lineage, h]
    | ok u =>
      cases lr with
      | error m => simp [extract_column_lineage, h]
      | ok g => simp [extract_column_lineage, h]

/-- `ball` at radius zero is the seed set. -/
theorem ball_zero (g : List StoredEdge) (seeds : List String) : ball g seeds 0 = seeds := rfl

/-- Membership in the next reachability ball: stay, or cross one more edge. -/
theorem mem_ball_succ (g : List StoredEdge) (seeds : List String) (n : Nat) (x : String) :
    x ∈ ball g seeds (n+1) ↔
      x ∈ ball g seeds n ∨
        ∃ e ∈ g, e.src_object_id ∈ ball g seeds n ∧ e.tgt_object_id = x := by
  simp only [ball, List.mem_append, List.mem_map, List.mem_filter]
  constructor
  · rintro (h | ⟨e, ⟨he, hc⟩, rfl⟩)
    · exact Or.inl h
    · exact Or.inr ⟨e, he, (contains_iff_mem _ _).mp hc, rfl⟩
  · rintro (h | ⟨e, he, hsrc, rfl⟩)
    · exact Or.inl h
    · exact Or.inr ⟨e, ⟨he, (contains_iff_mem _ _).mpr hsrc⟩, rfl⟩

/-- Reachability balls grow with the radius. -/
theorem ball_mono (g : List StoredEdge) (seeds : List String) (n : Nat) (x : String)
    (h : x ∈ ball g seeds n) : x ∈ ball g seeds (n+1) :=
  (mem_ball_succ g seeds n x).mpr (Or.inl h)

/-- Monotonicity of reachability balls in the radius. -/
theorem ball_mono_le (g : List StoredEdge) (seeds : List String) :
    ∀ {m n : Nat}, n ≤ m → ∀ x, x ∈ ball g seeds n → x ∈ ball g seeds m := by
  intro m
  induction m with
  | zero =>
    intro n h x hx
    have : n = 0 := Nat.le_zero.mp h
    subst this
    exact hx
  | succ m ih =>
    intro n h x hx
    rcases Nat.eq_or_lt_of_le h with rfl | hlt
    · exact hx
    · exact ball_mono g seeds m x (ih (Nat.lt_succ_iff.mp hlt) x hx)

/-- Crossing one edge from inside a ball lands in the next ball. -/
theorem ball_src_tgt (g : List StoredEdge) (seeds : List String) (n : Nat) (e : StoredEdge)
    (he : e ∈ g) (hs : e.src_object_id ∈ ball g seeds n) :
    e.tgt_object_id ∈ ball g seeds (n+1) :=
  (mem_ball_succ g seeds n e.tgt_object_id).mpr (Or.inr ⟨e, he, hs, rfl⟩)

/-- Once one expansion level discovers nothing new, the reachability balls
stay the same forever. -/
theorem ball_stab (g : List StoredEdge) (seeds : List String) (k : Nat)
    (h : ∀ x, x ∈ ball g seeds (k+1) → x ∈ ball g seeds k) :
    ∀ (j : Nat) (x : String), x ∈ ball g seeds (k+j) ↔ x ∈ ball g seeds k := by
  intro j
  induction j with
  | zero => intro x; exact Iff.rfl
  | succ j ih =>
    intro x
    constructor
    · intro hx
      rcases (mem_ball_succ g seeds (k+j) x).mp hx with h' | ⟨e, he, hsrc, rfl⟩
      · exact (ih x).mp h'
      · exact h _ (ball_src_tgt g seeds k e he ((ih _).mp hsrc))
    · intro hx
      exact ball_mono_le g seeds (Nat.le_add_right k (j+1)) x hx

/-- Main invariant argument: starting from a state satisfying the level-`k`
invariant, running the `lineage_impact` expansion for `fuel` more levels
visits exactly the ids within `k + fuel` hops and collects exactly the edges
whose source lies within `k + fuel - 1` hops — whether the loop runs out of
levels or stops early because a frontier discovered nothing new. -/
theorem impactLoop_char (g : List StoredEdge) (seeds : List String)
    (hg : ∀ e ∈ g, e.tgt_object_id ≠ "") :
    ∀ (fuel k : Nat) (s : ImpactState), ImpInv g seeds k s →
      (∀ x, x ∈ (impactLoop g fuel s).visited ↔ x ∈ ball g seeds (k + fuel)) ∧
      (∀ e, e ∈ (impactLoop g fuel s).rows ↔ e ∈ g ∧ SrcExpanded g seeds (k + fuel) e) := by
  intro fuel
  induction fuel with
  | zero =>
    intro k s hs
    exact ⟨hs.2.1, hs.2.2⟩
  | succ fuel ih =>
    intro k s hs
    obtain ⟨hcur, hvis, hrows⟩ := hs
    have hfront_ball : ∀ x, FrontMem g seeds k x → x ∈ ball g seeds k := by
      intro x hx
      cases k with
      | zero => exact hx
      | succ k' => exact hx.1
    have hball_front : ∀ x, x ∈ ball g seeds k → ¬FrontMem g seeds k x →
        (k ≠ 0 ∧ x ∈ ball g seeds (k-1)) := by
      intro x hx hnf
      cases k with
      | zero => exact absurd hx hnf
      | succ k' =>
        refine ⟨Nat.succ_ne_zero k', ?_⟩
        by_cases h' : x ∈ ball g seeds k'
        · exact h'
        · exact absurd ⟨hx, h'⟩ hnf
    have hrows' : ∀ e,
        e ∈ s.rows ++ g.filter (fun e => s.current.contains e.src_object_id) ↔
          e ∈ g ∧ e.src_object_id ∈ ball g seeds k := by
      intro e
      simp only [List.mem_append, List.mem_filter]
      constructor
      · rintro (hold | ⟨he, hc⟩)
        · obtain ⟨he, hse⟩ := (hrows e).mp hold
          refine ⟨he, ?_⟩
          cases k with
          | zero => exact False.elim hse
          | succ k' => exact ball_mono_le g seeds (Nat.le_succ k') _ hse
        · exact ⟨he, hfront_ball _ ((hcur _).mp ((contains_iff_mem _ _).mp hc))⟩
      · rintro ⟨he, hb⟩
        by_cases hfm : FrontMem g seeds k e.src_object_id
        · exact Or.inr ⟨he, (contains_iff_mem _ _).mpr ((hcur _).mpr hfm)⟩
        · left
          apply (hrows e).mpr
          refine ⟨he, ?_⟩
          obtain ⟨hk0, hbp⟩ := hball_front _ hb hfm
          cases k with
          | zero => exact absurd rfl hk0
          | succ k' => exact hbp
    have hnext : ∀ x,
        x ∈ ((g.filter (fun e => s.current.contains e.src_object_id)).map
              (fun e => e.tgt_object_id)).filter
            (fun t => !(t == "") && !(s.visited.contains t)) ↔
          FrontMem g seeds (k+1) x := by
      intro x
      simp only [List.mem_filter, List.mem_map, Bool.and_eq_true, Bool.not_eq_true',
        beq_eq_false_iff_ne, ne_eq]
      constructor
      · rintro ⟨⟨e, ⟨he, hc⟩, rfl⟩, _, hnv⟩
        have hsrc : e.src_object_id ∈ ball g seeds k :=
          hfront_ball _ ((hcur _).mp ((contains_iff_mem _ _).mp hc))
        have hnb : e.tgt_object_id ∉ ball g seeds k := by
          intro hb
          have hcon : s.visited.contains e.tgt_object_id = true :=
            (contains_iff_mem _ _).mpr ((hvis _).mpr hb)
          rw [hnv] at hcon
          simp at hcon
        exact ⟨ball_src_tgt g seeds k e he hsrc, hnb⟩
      · rintro ⟨hb1, hb0⟩
        rcases (mem_ball_succ g seeds k x).mp hb1 with h' | ⟨e, he, hsrc, rfl⟩
        · exact absurd h' hb0
        · have hfm : FrontMem g seeds k e.src_object_id := by
            cases k with
            | zero => exact hsrc
            | succ k' =>
              refine ⟨hsrc, fun h' => hb0 ?_⟩
              exact ball_src_tgt g seeds k' e he h'
          refine ⟨⟨e, ⟨he, (contains_iff_mem _ _).mpr ((hcur _).mpr hfm)⟩, rfl⟩,
            hg e he, ?_⟩
          exact Bool.eq_false_iff.mpr
            (fun hcon => hb0 ((hvis _).mp ((contains_iff_mem _ _).mp hcon)))
    simp only [impactLoop]
    by_cases hne : (((g.filter (fun e => s.current.contains e.src_object_id)).map
        (fun e => e.tgt_object_id)).filter
          (fun t => !(t == "") && !(s.visited.contains t))).isEmpty
    · rw [if_pos hne]
      have hnil := List.isEmpty_iff.mp hne
      have hstep : ∀ x, x ∈ ball g seeds (k+1) → x ∈ ball g seeds k := by
        intro x hx
        by_cases hxk : x ∈ ball g seeds k
        · exact hxk
        · have : x ∈ (((g.filter (fun e => s.current.contains e.src_object_id)).map
              (fun e => e.tgt_object_id)).filter
                (fun t => !(t == "") && !(s.visited.contains t))) :=
            (hnext x).mpr ⟨hx, hxk⟩
          rw [hnil] at this
          exact absurd this (List.not_mem_nil x)
      have hstab := ball_stab g seeds k hstep
      constructor
      · intro x
        rw [hvis x]
        exact ((hstab (fuel+1) x).symm)
      · intro e
        rw [hrows' e]
        show _ ↔ e ∈ g ∧ SrcExpanded g seeds ((k+fuel)+1) e
        constructor
        · rintro ⟨he, hb⟩
          exact ⟨he, (hstab fuel _).mpr hb⟩
        · rintro ⟨he, hb⟩
          exact ⟨he, (hstab fuel _).mp hb⟩
    · rw [if_neg hne]
      have hinv : ImpInv g seeds (k+1)
          { current := (((g.filter (fun e => s.current.contains e.src_object_id)).map
                (fun e => e.tgt_object_id)).filter
                  (fun t => !(t == "") && !(s.visited.contains t)))
            visited := s.visited ++ (((g.filter
                (fun e => s.current.contains e.src_object_id)).map
                  (fun e => e.tgt_object_id)).filter
                    (fun t => !(t == "") && !(s.visited.contains t)))
            rows := s.rows ++ g.filter (fun e => s.current.contains e.src_object_id) } := by
        refine ⟨hnext, ?_, ?_⟩
        · intro x
          simp only [List.mem_append]
          constructor
          · rintro (hv | hn)
            · exact ball_mono g seeds k x ((hvis x).mp hv)
            · exact ((hnext x).mp hn).1
          · intro hb
            by_cases hxk : x ∈ ball g seeds k
            · exact Or.inl ((hvis x).mpr hxk)
            · exact Or.inr ((hnext x).mpr ⟨hb, hxk⟩)
        · intro e
          rw [hrows' e]
          exact Iff.rfl
      have hres := ih (k+1) _ hinv
      have hidx : (k+1) + fuel = k + (fuel+1) := by omega
      rw [hidx] at hres
      exact hres

/-- Reachability from an empty seed set is empty. -/
theorem ball_empty (g : List StoredEdge) : ∀ d : Nat, ball g [] d = [] := by
  intro d
  induction d with
  | zero => rfl
  | succ d ih =>
    show ball g [] d ++ _ = []
    rw [ih]
    have hc : ∀ e : StoredEdge, (([] : List String).contains e.src_object_id) = false :=
      fun e => rfl
    simp [hc]

/-- In a store whose edges all target stored nodes, every reachable id has a
node row. -/
theorem ball_nodes_exist (st : Store) (name : String)
    (hwf : ∀ e ∈ st.edges, ∃ r ∈ st.nodes, r.object_id = e.tgt_object_id) :
    ∀ (d : Nat) (x : String), x ∈ ball st.edges (seedIdsFor st name) d →
      ∃ r ∈ st.nodes, r.object_id = x := by
  intro d
  induction d with
  | zero =>
    intro x hx
    obtain ⟨r, hr, hre⟩ := List.mem_map.mp hx
    exact ⟨r, (List.mem_filter.mp hr).1, hre⟩
  | succ d ih =>
    intro x hx
    rcases (mem_ball_succ _ _ d x).mp hx with h | ⟨e, he, _, rfl⟩
    · exact ih x h
    · exact hwf e he

/-- **C4.**  On a well-formed store (no null edge targets, every edge target
has a node row), a downstream impact query returns exactly the reachable
subgraph within the depth bound: a node row for precisely the ids within
`depth` source→target hops of the name-resolved seeds (the seeds included),
and precisely the edges whose source lies within `depth - 1` hops — every
edge met during expansion, not only the final frontier. -/
theorem claim_C4 (st : Store) (name : String) (depth : Nat) (hd : 1 ≤ depth)
    (hwf : ∀ e ∈ st.edges, e.tgt_object_id ≠ "" ∧
      ∃ r ∈ st.nodes, r.object_id = e.tgt_object_id) :
    (∀ x, (∃ r ∈ (lineage_impact st name depth).nodes, r.object_id = x) ↔
        x ∈ ball st.edges (seedIdsFor st name) depth) ∧
    (∀ e, e ∈ (lineage_impact st name depth).edges ↔
        e ∈ st.edges ∧ e.src_object_id ∈ ball st.edges (seedIdsFor st name) (depth - 1)) := by
  obtain ⟨d', rfl⟩ : ∃ d', depth = d' + 1 := ⟨depth - 1, by omega⟩
  simp only [lineage_impact]
  by_cases hseed : (seedIdsFor st name).isEmpty
  · have hnil : seedIdsFor st name = [] := by
      cases h : seedIdsFor st name
      · rfl
      · rw [h] at hseed; simp [List.isEmpty] at hseed
    rw [if_pos hseed]
    constructor
    · intro x
      rw [hnil, ball_empty]
      simp
    · intro e
      rw [hnil, ball_empty]
      simp
  · rw [if_neg hseed]
    have hmax : max 1 (d' + 1) = d' + 1 := by omega
    rw [hmax]
    have hchar := impactLoop_char st.edges (seedIdsFor st name)
      (fun e he => (hwf e he).1) (d' + 1) 0
      { current := seedIdsFor st name, visited := seedIdsFor st name, rows := [] }
      ⟨fun x => Iff.rfl, fun x => Iff.rfl, fun e => by simp [SrcExpanded]⟩
    rw [Nat.zero_add] at hchar
    obtain ⟨hv, hr⟩ := hchar
    constructor
    · intro x
      constructor
      · rintro ⟨r, hrm, rfl⟩
        exact (hv _).mp ((contains_iff_mem _ _).mp (List.mem_filter.mp hrm).2)
      · intro hx
        obtain ⟨r, hrn, hre⟩ :=
          ball_nodes_exist st name (fun e he => (hwf e he).2) (d' + 1) x hx
        exact ⟨r, List.mem_filter.mpr
          ⟨hrn, (contains_iff_mem _ _).mpr ((hv _).mpr (by rw [hre]; exact hx))⟩, hre⟩
    · intro e
      exact hr e

/-- **C4, witness.**  On the chain `A → B` with depth 1. -/
theorem claim_C4_witness :
    (∃ r ∈ (lineage_impact chainStore "A" 1).nodes, r.object_id = "B") ↔
      "B" ∈ ball chainStore.edges (seedIdsFor chainStore "A") 1 :=
  (claim_C4 chainStore "A" 1 (by decide) (by decide)).1 "B"

/-- The concatenation `"L" ++ s` is never empty. -/
theorem L_append_ne_empty (s : String) : ("L" ++ s) ≠ "" := by
  intro h
  have hd : 'L' :: s.data = ([] : List Char) := congrArg String.data h
  simp at hd

/-- The concatenation `"L" ++ s` is never the name `"A"`. -/
theorem L_append_ne_A (s : String) : ("L" ++ s) ≠ "A" := by
  intro h
  have hd : 'L' :: s.data = ['A'] := congrArg String.data h
  have hch : 'L' = 'A' := (List.cons.injEq _ _ _ _).mp hd |>.1
  exact absurd hch (by decide)

/-- The star store's name resolution finds exactly the hub. -/
theorem star_seeds (n : Nat) : seedIdsFor (starStore n) "A" = ["A"] := by
  have hm : nameMatches (starStore n) "A" = [mkNodeRow "A"] := by
    show List.filter _ (mkNodeRow "A" :: (List.range n).map leafRow) = _
    rw [List.filter_cons_of_pos (by decide)]
    rw [List.filter_eq_nil_iff.mpr]
    intro r hr
    obtain ⟨i, hi, rfl⟩ := List.mem_map.mp hr
    show ¬(upperStr "" == upperStr "A") = true
    decide
  unfold seedIdsFor
  rw [hm]
  rfl

/-- **C9, counterexample.**  A 12-leaf fan-out at depth 1 — an expansion
exceeding a 10-object circuit-breaker bound — still returns the complete
13-node, 12-edge result with no truncation indicator of any kind (`info` is
`none`; the result envelope has no `truncated` field at all): the traversal
never stops early on a size bound. -/
theorem claim_C9_counterexample :
    (lineage_impact (starStore 12) "A" 1).nodes.length = 13 ∧
    13 > 10 ∧
    (lineage_impact (starStore 12) "A" 1).edges.length = 12 ∧
    (lineage_impact (starStore 12) "A" 1).info = none := by decide

/-- **C9, amended.**  The traversal is bounded by `max_depth` only: no
node/edge-count circuit breaker exists and no truncation marker is ever
reported (the `info` field of an impact result is always `none`), and the
result size grows without bound in the store's fan-out — for every `n` there
is a store on which a depth-1 impact query returns `n + 1` node rows. -/
theorem claim_C9_amended :
    (∀ (st : Store) (name : String) (depth : Nat),
      (lineage_impact st name depth).info = none) ∧
    (∀ n : Nat, ∃ st : Store, (lineage_impact st "A" 1).nodes.length = n + 1) := by
  constructor
  · intro st name depth
    simp only [lineage_impact]
    by_cases h : (seedIdsFor st name).isEmpty
    · rw [if_pos h]
    · rw [if_neg h]
  · intro n
    refine ⟨starStore n, ?_⟩
    have hg : ∀ e ∈ (starStore n).edges, e.tgt_object_id ≠ "" := by
      intro e he
      obtain ⟨i, hi, rfl⟩ := List.mem_map.mp he
      exact L_append_ne_empty (Nat.repr i)
    simp only [lineage_impact]
    rw [star_seeds]
    rw [if_neg (by decide)]
    have hchar := impactLoop_char (starStore n).edges ["A"] hg (max 1 1) 0
      { current := ["A"], visited := ["A"], rows := [] }
      ⟨fun x => Iff.rfl, fun x => Iff.rfl, fun e => by simp [SrcExpanded]⟩
    rw [Nat.zero_add] at hchar
    obtain ⟨hv, _⟩ := hchar
    rw [List.filter_eq_self.mpr]
    · show (mkNodeRow "A" :: (List.range n).map leafRow).length = n + 1
      simp
    · intro r hr
      rcases List.mem_cons.mp hr with rfl | hlm
      · apply (contains_iff_mem _ _).mpr
        apply (hv _).mpr
        show (mkNodeRow "A").object_id ∈ ball _ _ (max 1 1)
        exact ball_mono _ _ 0 _ (List.mem_singleton.mpr rfl)
      · obtain ⟨i, hi, rfl⟩ := List.mem_map.mp hlm
        apply (contains_iff_mem _ _).mpr
        apply (hv _).mpr
        show (leafRow i).object_id ∈ ball _ _ (max 1 1)
        apply (mem_ball_succ _ _ 0 _).mpr
        right
        refine ⟨mkEdgeRow i "A" ("L" ++ Nat.repr i), ?_, ?_, rfl⟩
        · exact List.mem_map.mpr ⟨i, hi, rfl⟩
        · show "A" ∈ (["A"] : List String)
          simp

/-- **C10, witness.**  A failed parse of non-empty SQL yields empty lists. -/
theorem claim_C10_witness :
    (extract_column_lineage "SELECT" (Except.error "boom")
        (Except.ok { nodes := [], edges := [] })).nodes = [] ∧
    (extract_column_lineage "SELECT" (Except.error "boom")
        (Except.ok { nodes := [], edges := [] })).edges = [] :=
  (claim_C10 "SELECT" (Except.error "boom") (Except.ok { nodes := [], edges := [] })).2
    (by decide)

end Snowsarva
